import Mathlib

/-!
# wblog: database backup / restore controller (`controllers/backup.go`)

A shallow embedding of `isValidFileName`, `RestorePost` and `Backup`, together
with the parts of the Go standard library they call (`regexp`, `path/filepath`,
`path`, `net/url`), and the properties of the snapshot transfer pipeline.

A Go string is a sequence of bytes; it is modelled by the Lean string that has one
character per byte (the character whose code is the byte), so an ASCII text is
modelled by itself.  File contents are lists of bytes.  An `error` value is
modelled by its message, `nil` by `none`.
-/

namespace Wblog

/-! ## `regexp`: the fragment needed by the pattern `^[a-zA-Z0-9._-]+$` -/

/-- Abstract syntax of the regular expressions that occur in the controller. -/
inductive Regex where
  | beginText : Regex
  | endText : Regex
  | charClass (ranges : List (Char × Char)) : Regex
  | plus (r : Regex) : Regex
  | concat (a b : Regex) : Regex

/-- A position of the matcher: the offset already consumed and the remaining input. -/
abbrev MatchPos := Nat × List Char

/-- Membership of a character in a bracket expression given as a list of ranges. -/
def inRanges (ranges : List (Char × Char)) (c : Char) : Bool :=
  ranges.any (fun r => decide (r.1 ≤ c) && decide (c ≤ r.2))

/-- One or more iterations of a sub-matcher.  An iteration that consumes nothing is
kept as a result but not iterated again, so `rest.length + 1` rounds explore every
position reachable. -/
def plusLoop (f : MatchPos → List MatchPos) : Nat → MatchPos → List MatchPos
  | 0, _ => []
  | fuel + 1, st =>
    (f st).flatMap (fun st' =>
      st' :: (if st'.2.length < st.2.length then plusLoop f fuel st' else []))

/-- All positions at which a match of the expression started at `st` can end.
`^` and `$` are the text anchors (no `m` flag).  The input is read one byte at a
time: a byte above `0x7f` is part of a multi-byte or invalid UTF-8 sequence, whose
rune lies in no ASCII range, as the byte itself does. -/
def Regex.run : Regex → MatchPos → List MatchPos
  | .beginText, st => if st.1 = 0 then [st] else []
  | .endText, st => if st.2.isEmpty then [st] else []
  | .charClass ranges, (n, c :: t) => if inRanges ranges c then [(n + 1, t)] else []
  | .charClass _, (_, []) => []
  | .plus r, st => plusLoop r.run (st.2.length + 1) st
  | .concat a b, st => (a.run st).flatMap (fun st' => b.run st')

/-- Every offset of the input, with the input remaining there. -/
def startPositions : Nat → List Char → List MatchPos
  | n, [] => [(n, [])]
  | n, c :: t => (n, c :: t) :: startPositions (n + 1) t

/-- `regexp.MatchString`: does the text contain any match of the expression? -/
def Regex.matchString (re : Regex) (s : String) : Bool :=
  (startPositions 0 s.toList).any (fun st => !(re.run st).isEmpty)

/-- The pattern literal `^[a-zA-Z0-9._-]+$` of `isValidFileName`. -/
def fileNamePattern : Regex :=
  .concat .beginText
    (.concat
      (.plus (.charClass [('a', 'z'), ('A', 'Z'), ('0', '9'), ('.', '.'), ('_', '_'), ('-', '-')]))
      .endText)

/-- `isValidFileName` of `controllers/backup.go`. -/
def isValidFileName (name : String) : Bool :=
  fileNamePattern.matchString name

/-! ## `path/filepath.Base` (Unix) -/

/-- `os.IsPathSeparator` on Unix. -/
def isPathSeparator (c : Char) : Bool := c == '/'

/-- `filepath.Base`: the last element of the path.  Trailing separators are removed
first; the empty path gives `"."`, a path of separators only gives `"/"`.  The
lists are the path read from its end. -/
def filepathBase (path : String) : String :=
  if path = "" then "."
  else
    let stripped := path.toList.reverse.dropWhile isPathSeparator
    let last := stripped.takeWhile (fun c => !isPathSeparator c)
    if last.isEmpty then "/" else String.mk last.reverse

/-! ## `path.Clean` and `path.Join` -/

/-- The inner loop of the `..` case of `path.Clean`: after one byte has been dropped
from the output, keep dropping while the output is longer than `dotdot` and the
byte dropped last is not a slash.  The output buffer is held reversed. -/
def cleanBacktrack (dotdot : Nat) : Char → List Char → List Char
  | _, [] => []
  | removed, c :: out =>
    if dotdot < (c :: out).length && removed != '/' then cleanBacktrack dotdot c out
    else c :: out

/-- The main loop of `path.Clean` over the unread input `rest`, with the output buffer
`out` (reversed) and the index `dotdot` below which the output may not be cut.  Each
round reads at least one byte, so `rest.length` rounds of fuel read the whole input. -/
def cleanLoop (rooted : Bool) : Nat → List Char → List Char → Nat → List Char
  | 0, _, out, _ => out
  | fuel + 1, rest, out, dotdot =>
    match rest with
    | [] => out
    | c :: t =>
      if c = '/' then
        cleanLoop rooted fuel t out dotdot
      else if c = '.' ∧ (t = [] ∨ t.head? = some '/') then
        cleanLoop rooted fuel t out dotdot
      else if c = '.' ∧ t.head? = some '.' ∧ (t.tail = [] ∨ t.tail.head? = some '/') then
        match out with
        | o :: out' =>
          if dotdot < (o :: out').length then
            cleanLoop rooted fuel t.tail (cleanBacktrack dotdot o out') dotdot
          else if !rooted then
            cleanLoop rooted fuel t.tail ('.' :: '.' :: '/' :: o :: out') (out'.length + 4)
          else
            cleanLoop rooted fuel t.tail (o :: out') dotdot
        | [] =>
          if !rooted then cleanLoop rooted fuel t.tail ['.', '.'] 2
          else cleanLoop rooted fuel t.tail [] dotdot
      else
        let out1 :=
          if (rooted && out.length != 1) || (!rooted && out.length != 0) then '/' :: out else out
        cleanLoop rooted fuel (rest.dropWhile (fun x => x != '/'))
          ((rest.takeWhile (fun x => x != '/')).reverse ++ out1) dotdot

/-- `path.Clean`: the shortest path equivalent to `path` by lexical processing. -/
def pathClean (path : String) : String :=
  if path = "" then "."
  else
    let cs := path.toList
    let out :=
      if cs.head? = some '/' then cleanLoop true cs.length cs.tail ['/'] 1
      else cleanLoop false cs.length cs [] 0
    if out.isEmpty then "." else String.mk out.reverse

/-- `path.Join`: the elements from the first non-empty one on, separated by slashes,
then cleaned; the empty string when every element is empty. -/
def pathJoin (elem : List String) : String :=
  if elem.all (fun e => e = "") then ""
  else pathClean ("/".intercalate (elem.dropWhile (fun e => e = "")))

/-! ## `net/url` -/

deriving instance DecidableEq for Except

/-- The `encoding` modes of `net/url`. -/
inductive Encoding where
  | encodePath
  | encodePathSegment
  | encodeHost
  | encodeZone
  | encodeUserPassword
  | encodeQueryComponent
  | encodeFragment
  deriving DecidableEq

/-- `url.Userinfo`. -/
structure Userinfo where
  username : String
  password : String
  passwordSet : Bool
  deriving DecidableEq

/-- `url.URL`. -/
structure URL where
  Scheme : String := ""
  Opaque : String := ""
  User : Option Userinfo := none
  Host : String := ""
  Path : String := ""
  RawPath : String := ""
  OmitHost : Bool := false
  ForceQuery : Bool := false
  RawQuery : String := ""
  Fragment : String := ""
  RawFragment : String := ""
  deriving DecidableEq

def isAlnum (c : Char) : Bool :=
  ('a' ≤ c && c ≤ 'z') || ('A' ≤ c && c ≤ 'Z') || ('0' ≤ c && c ≤ '9')

/-- `shouldEscape`: must the byte be percent-encoded in the given part of a URL? -/
def shouldEscape (c : Char) (mode : Encoding) : Bool :=
  if isAlnum c then false
  else if (mode = .encodeHost ∨ mode = .encodeZone) ∧
      c ∈ ['!', '$', '&', '\'', '(', ')', '*', '+', ',', ';', '=', ':', '[', ']', '<', '>', '"'] then
    false
  else if c ∈ ['-', '_', '.', '~'] then false
  else if c ∈ ['$', '&', '+', ',', '/', ':', ';', '=', '?', '@'] then
    match mode with
    | .encodePath => c == '?'
    | .encodePathSegment => c == '/' || c == ';' || c == ',' || c == '?'
    | .encodeUserPassword => c == '@' || c == '/' || c == '?' || c == ':'
    | .encodeQueryComponent => true
    | .encodeFragment => false
    | _ => true
  else if mode = .encodeFragment ∧ c ∈ ['!', '(', ')', '*'] then false
  else true

def ishex (c : Char) : Bool :=
  ('0' ≤ c && c ≤ '9') || ('a' ≤ c && c ≤ 'f') || ('A' ≤ c && c ≤ 'F')

def unhex (c : Char) : Nat :=
  if '0' ≤ c ∧ c ≤ '9' then c.toNat - '0'.toNat
  else if 'a' ≤ c ∧ c ≤ 'f' then c.toNat - 'a'.toNat + 10
  else if 'A' ≤ c ∧ c ≤ 'F' then c.toNat - 'A'.toNat + 10
  else 0

/-- The validating first pass of `unescape`. -/
def unescapeCheck (mode : Encoding) : List Char → Except String Unit
  | [] => .ok ()
  | '%' :: a :: b :: t =>
    if !ishex a || !ishex b then .error "invalid URL escape"
    else if mode = .encodeHost ∧ unhex a < 8 ∧ (a, b) ≠ ('2', '5') then
      .error "invalid URL escape"
    else if mode = .encodeZone ∧ (a, b) ≠ ('2', '5') ∧ 16 * unhex a + unhex b ≠ 32 ∧
        shouldEscape (Char.ofNat (16 * unhex a + unhex b)) .encodeHost then
      .error "invalid URL escape"
    else unescapeCheck mode t
  | '%' :: _ => .error "invalid URL escape"
  | c :: t =>
    if (mode = .encodeHost ∨ mode = .encodeZone) ∧ c.toNat < 128 ∧ shouldEscape c .encodeHost then
      .error "invalid character in host name"
    else unescapeCheck mode t

/-- The decoding second pass of `unescape`, on input that passed the first. -/
def unescapeDecode (mode : Encoding) : List Char → List Char
  | [] => []
  | '%' :: a :: b :: t => Char.ofNat (16 * unhex a + unhex b) :: unescapeDecode mode t
  | '+' :: t => (if mode = .encodeQueryComponent then ' ' else '+') :: unescapeDecode mode t
  | c :: t => c :: unescapeDecode mode t

/-- `unescape`: percent-decoding, with the checks of the given mode. -/
def unescape (s : String) (mode : Encoding) : Except String String :=
  match unescapeCheck mode s.toList with
  | .error e => .error e
  | .ok () => .ok (String.mk (unescapeDecode mode s.toList))

def upperhex (n : Nat) : Char := "0123456789ABCDEF".toList.getD n '0'

/-- `escape`: percent-encoding of the bytes that `shouldEscape` in the given mode. -/
def escape (s : String) (mode : Encoding) : String :=
  String.mk (s.toList.flatMap (fun c =>
    if shouldEscape c mode then
      if c = ' ' ∧ mode = .encodeQueryComponent then ['+']
      else ['%', upperhex (c.toNat / 16), upperhex (c.toNat % 16)]
    else [c]))

/-- `validEncoded`: is the string a valid encoded path or fragment? -/
def validEncoded (s : String) (mode : Encoding) : Bool :=
  s.toList.all (fun c =>
    c ∈ ['!', '$', '&', '\'', '(', ')', '*', '+', ',', ';', '=', ':', '@', '[', ']', '%'] ||
      !shouldEscape c mode)

/-- `(*URL).setPath`: sets `Path` and, when the default encoding differs, `RawPath`. -/
def URL.setPath (u : URL) (p : String) : Except String URL :=
  match unescape p .encodePath with
  | .error e => .error e
  | .ok path =>
    .ok { u with Path := path, RawPath := if p = escape path .encodePath then "" else p }

/-- `(*URL).EscapedPath`. -/
def URL.EscapedPath (u : URL) : String :=
  if u.RawPath ≠ "" ∧ validEncoded u.RawPath .encodePath ∧
      unescape u.RawPath .encodePath = .ok u.Path then u.RawPath
  else if u.Path = "*" then "*"
  else escape u.Path .encodePath

/-- `(*URL).setFragment`. -/
def URL.setFragment (u : URL) (f : String) : Except String URL :=
  match unescape f .encodeFragment with
  | .error e => .error e
  | .ok frag =>
    .ok { u with
      Fragment := frag, RawFragment := if f = escape frag .encodeFragment then "" else f }

/-- `(*URL).EscapedFragment`. -/
def URL.EscapedFragment (u : URL) : String :=
  if u.RawFragment ≠ "" ∧ validEncoded u.RawFragment .encodeFragment ∧
      unescape u.RawFragment .encodeFragment = .ok u.Fragment then u.RawFragment
  else escape u.Fragment .encodeFragment

/-- The scan of `getScheme` at index `i`, with `rest` the input from `i` on. -/
def getSchemeLoop (rawURL : List Char) : Nat → List Char → Except String (List Char × List Char)
  | _, [] => .ok ([], rawURL)
  | i, c :: t =>
    if ('a' ≤ c ∧ c ≤ 'z') ∨ ('A' ≤ c ∧ c ≤ 'Z') then getSchemeLoop rawURL (i + 1) t
    else if ('0' ≤ c ∧ c ≤ '9') ∨ c = '+' ∨ c = '-' ∨ c = '.' then
      if i = 0 then .ok ([], rawURL) else getSchemeLoop rawURL (i + 1) t
    else if c = ':' then
      if i = 0 then .error "missing protocol scheme" else .ok (rawURL.take i, t)
    else .ok ([], rawURL)

/-- `getScheme`: splits a leading `scheme:` off the URL. -/
def getScheme (rawURL : List Char) : Except String (List Char × List Char) :=
  getSchemeLoop rawURL 0 rawURL

/-- `strings.Cut` at a single byte: the text before the first `sep` and the text after it. -/
def cut (s : List Char) (sep : Char) : List Char × List Char :=
  (s.takeWhile (fun c => c != sep), (s.dropWhile (fun c => c != sep)).tail)

/-- The text before the last `sep` and the text from it on (`strings.LastIndex`), if any. -/
def splitLast (s : List Char) (sep : Char) : Option (List Char × List Char) :=
  let after := s.reverse.takeWhile (fun c => c != sep)
  match s.reverse.dropWhile (fun c => c != sep) with
  | [] => none
  | x :: before => some (before.reverse, x :: after.reverse)

/-- `validOptionalPort`: empty, or a colon followed by digits. -/
def validOptionalPort (port : List Char) : Bool :=
  match port with
  | [] => true
  | c :: t => c == ':' && t.all (fun b => '0' ≤ b && b ≤ '9')

/-- `validUserinfo`. -/
def validUserinfo (s : List Char) : Bool :=
  s.all (fun r => isAlnum r ||
    r ∈ ['-', '.', '_', ':', '~', '!', '$', '&', '\'', '(', ')', '*', '+', ',', ';', '=', '%', '@'])

/-- The index of the first `%25` in the text (`strings.Index`), if any. -/
def indexPercent25 : List Char → Option Nat
  | [] => none
  | c :: t =>
    if c = '%' ∧ t.take 2 = ['2', '5'] then some 0 else (indexPercent25 t).map (fun i => i + 1)

/-- `parseHost`: validates the host, with an optional port, and decodes it. -/
def parseHost (host : List Char) : Except String String :=
  let plain : Except String String := unescape (String.mk host) .encodeHost
  if host.head? = some '[' then
    match splitLast host ']' with
    | none => .error "missing ']' in host"
    | some (before, fromBracket) =>
      if !validOptionalPort fromBracket.tail then .error "invalid port after host"
      else
        match indexPercent25 before with
        | some zone =>
          match unescape (String.mk (before.take zone)) .encodeHost,
              unescape (String.mk (before.drop zone)) .encodeZone,
              unescape (String.mk fromBracket) .encodeHost with
          | .ok host1, .ok host2, .ok host3 => .ok (host1 ++ host2 ++ host3)
          | .error e, _, _ => .error e
          | _, .error e, _ => .error e
          | _, _, .error e => .error e
        | none => plain
  else
    match splitLast host ':' with
    | some (_, colonPort) =>
      if !validOptionalPort colonPort then .error "invalid port after host" else plain
    | none => plain

/-- `parseAuthority`: splits `userinfo@host` and parses both parts. -/
def parseAuthority (authority : List Char) : Except String (Option Userinfo × String) :=
  match splitLast authority '@' with
  | none =>
    match parseHost authority with
    | .error e => .error e
    | .ok host => .ok (none, host)
  | some (userinfo, atHost) =>
    match parseHost atHost.tail with
    | .error e => .error e
    | .ok host =>
      if !validUserinfo userinfo then .error "net/url: invalid userinfo"
      else if !userinfo.contains ':' then
        match unescape (String.mk userinfo) .encodeUserPassword with
        | .error e => .error e
        | .ok name => .ok (some ⟨name, "", false⟩, host)
      else
        match unescape (String.mk (cut userinfo ':').1) .encodeUserPassword,
            unescape (String.mk (cut userinfo ':').2) .encodeUserPassword with
        | .ok name, .ok pass => .ok (some ⟨name, pass, true⟩, host)
        | .error e, _ => .error e
        | _, .error e => .error e

/-- The unexported `parse` of `net/url` with `viaRequest = false`. -/
def parseNoFragment (rawURL : List Char) : Except String URL :=
  if rawURL.any (fun c => c.toNat < 0x20 || c.toNat = 0x7f) then
    .error "net/url: invalid control character in URL"
  else if rawURL = ['*'] then .ok { Path := "*" }
  else
    match getScheme rawURL with
    | .error e => .error e
    | .ok (scheme0, rest0) =>
      let scheme := String.mk (scheme0.map Char.toLower)
      let forceQuery : Bool := rest0.getLast? = some '?' && rest0.count '?' = 1
      let rest1 := if forceQuery then rest0.dropLast else (cut rest0 '?').1
      let rawQuery := if forceQuery then [] else (cut rest0 '?').2
      let url : URL := { Scheme := scheme, ForceQuery := forceQuery, RawQuery := String.mk rawQuery }
      if rest1.head? ≠ some '/' ∧ scheme ≠ "" then
        .ok { url with Opaque := String.mk rest1 }
      else if rest1.head? ≠ some '/' ∧ (cut rest1 '/').1.contains ':' then
        .error "first path segment in URL cannot contain colon"
      else if (scheme ≠ "" ∨ rest1.take 3 ≠ ['/', '/', '/']) ∧ rest1.take 2 = ['/', '/'] then
        let afterSlashes := rest1.drop 2
        let authority := afterSlashes.takeWhile (fun c => c != '/')
        let rest2 := afterSlashes.dropWhile (fun c => c != '/')
        match parseAuthority authority with
        | .error e => .error e
        | .ok (user, host) => URL.setPath { url with User := user, Host := host } (String.mk rest2)
      else if scheme ≠ "" ∧ rest1.head? = some '/' then
        URL.setPath { url with OmitHost := true } (String.mk rest1)
      else
        URL.setPath url (String.mk rest1)

/-- `url.Parse`. -/
def urlParse (rawURL : String) : Except String URL :=
  let u := (cut rawURL.toList '#').1
  let frag := (cut rawURL.toList '#').2
  match parseNoFragment u with
  | .error e => .error ("parse " ++ String.mk u ++ ": " ++ e)
  | .ok url =>
    if frag = [] then .ok url
    else
      match url.setFragment (String.mk frag) with
      | .error e => .error ("parse " ++ rawURL ++ ": " ++ e)
      | .ok url' => .ok url'

/-- `(*Userinfo).String`. -/
def Userinfo.string (u : Userinfo) : String :=
  escape u.username .encodeUserPassword ++
    (if u.passwordSet then ":" ++ escape u.password .encodeUserPassword else "")

/-- The user part written by `(*URL).String`: `userinfo@`, or nothing without a user. -/
def userinfoAt : Option Userinfo → String
  | some ui => ui.string ++ "@"
  | none => ""

/-- The authority part written by `(*URL).String`: `//`, the user and the host. -/
def URL.authorityString (u : URL) : String :=
  if u.Scheme ≠ "" ∨ u.Host ≠ "" ∨ u.User.isSome then
    if u.OmitHost ∧ u.Host = "" ∧ u.User.isNone then ""
    else
      (if u.Host ≠ "" ∨ u.Path ≠ "" ∨ u.User.isSome then "//" else "") ++
        userinfoAt u.User ++
        (if u.Host ≠ "" then escape u.Host .encodeHost else "")
  else ""

/-- `(*URL).String`: reassembles the URL. -/
def URL.string (u : URL) : String :=
  let schemePart := if u.Scheme ≠ "" then u.Scheme ++ ":" else ""
  let body :=
    if u.Opaque ≠ "" then schemePart ++ u.Opaque
    else
      let head := schemePart ++ u.authorityString
      let path := u.EscapedPath
      let slash := if path ≠ "" ∧ path.toList.head? ≠ some '/' ∧ u.Host ≠ "" then "/" else ""
      let dotSlash :=
        if head ++ slash = "" ∧ (cut path.toList '/').1.contains ':' then "./" else ""
      head ++ slash ++ dotSlash ++ path
  let query := if u.ForceQuery ∨ u.RawQuery ≠ "" then "?" ++ u.RawQuery else ""
  let fragment := if u.Fragment ≠ "" then "#" ++ u.EscapedFragment else ""
  body ++ query ++ fragment

/-- `(*URL).JoinPath`: the URL with the elements joined to its path and the result
cleaned of `./` and `../` elements. -/
def URL.JoinPath (u : URL) (elem : List String) : URL :=
  let first := u.EscapedPath
  let p0 :=
    if first.toList.head? ≠ some '/' then
      String.mk (pathJoin (("/" ++ first) :: elem)).toList.tail
    else pathJoin (first :: elem)
  let last := (first :: elem).getLast?.getD ""
  let p := if last.toList.getLast? = some '/' ∧ p0.toList.getLast? ≠ some '/' then p0 ++ "/" else p0
  match u.setPath p with
  | .ok url => url
  | .error _ => u

/-- `url.JoinPath`: parses the base and joins the elements to its path. -/
def urlJoinPath (base : String) (elem : List String) : Except String String :=
  match urlParse base with
  | .error e => .error e
  | .ok url => .ok (url.JoinPath elem).string

/-! ## The controller: configuration, collaborators and observable effects -/

/-- File content and HTTP bodies. -/
abbrev Bytes := List UInt8

/-- The `Database` section of `system.Configuration`, as read by the controller. -/
structure DatabaseConfig where
  Dialect : String
  DSN : String

/-- The `Backup` section of `system.Configuration`, as read by the controller. -/
structure BackupConfig where
  Enabled : Bool
  BackupKey : String

/-- The `Qiniu` section of `system.Configuration`, as read by the controller. -/
structure QiniuConfig where
  Enabled : Bool
  FileServer : String
  Bucket : String
  AccessKey : String
  SecretKey : String

/-- The value returned by `system.GetConfiguration()`. -/
structure Configuration where
  Database : DatabaseConfig
  Backup : BackupConfig
  Qiniu : QiniuConfig

/-- An `*http.Response` as the controller uses it: the status code, and what
`ioutil.ReadAll(resp.Body)` returns. -/
structure Response where
  StatusCode : Int
  Body : Except String Bytes

/-- The collaborators outside the controller: the HTTP client, the file system, the
`helpers` package (`Encrypt`, `Decrypt`, `PathExists`, the formatted current time)
and the object-storage SDK (`UploadToken`, `Put`). -/
structure World where
  Get : String → Except String Response
  Decrypt : Bytes → String → Except String Bytes
  Encrypt : Bytes → String → Except String Bytes
  WriteFile : String → Bytes → Option String
  PathExists : String → Bool
  ReadFile : String → Except String Bytes
  currentTimeStamp : String
  UploadToken : String → String → String → String
  Put : String → String → Bytes → Option String

/-- The calls a run makes, in order. -/
inductive Event where
  | urlParse (rawURL : String)
  | httpGet (url : String)
  | readAll
  | decrypt (data : Bytes) (key : String)
  | writeFile (path : String) (data : Bytes)
  | pathExists (path : String)
  | readFile (path : String)
  | encrypt (data : Bytes) (key : String)
  | put (name : String) (data : Bytes)
  deriving DecidableEq

/-- The response bag `res` (`gin.H`) that the deferred `writeJSON` sends: the value
under `"message"`, if set, and whether `"succeed"` was set to `true`. -/
structure H where
  message : Option String := none
  succeed : Bool := false
  deriving DecidableEq

/-- The result of a run of `RestorePost`: the response bag, whether the handler
panicked, and the calls it made. -/
structure Outcome where
  res : H
  panicked : Bool
  trace : List Event
  deriving DecidableEq

/-- `RestorePost` of `controllers/backup.go`, on the posted form value `fileName`. -/
def RestorePost (cfg : Configuration) (w : World) (fileName : String) : Outcome :=
  if fileName = "" then
    ⟨{ message := some "fileName cannot be empty." }, false, []⟩
  else if !isValidFileName fileName then
    ⟨{ message := some "Invalid fileName format. Only alphanumeric, ., -, _ are allowed." },
      false, []⟩
  else
    let baseName := filepathBase fileName
    if baseName ≠ fileName then
      ⟨{ message := some "Invalid fileName: path traversal is not allowed." }, false, []⟩
    else if cfg.Database.Dialect ≠ "sqlite" then
      ⟨{ message := some "only support sqlite dialect" }, false, []⟩
    else if !cfg.Backup.Enabled || !cfg.Qiniu.Enabled then
      ⟨{ message := some "backup or quniu not enabled" }, false, []⟩
    else
      let trustedBaseURL := cfg.Qiniu.FileServer
      let t1 := [Event.urlParse trustedBaseURL]
      let schemeOk : Bool :=
        match urlParse trustedBaseURL with
        | .error _ => false
        | .ok parsedBaseURL => parsedBaseURL.Scheme = "https"
      if !schemeOk then
        ⟨{ message := some "Internal server configuration error." }, false, t1⟩
      else
        match urlJoinPath trustedBaseURL [baseName] with
        | .error _ => ⟨{ message := some "Internal error constructing URL." }, false, t1⟩
        | .ok fileUrl =>
          let t2 := t1 ++ [Event.httpGet fileUrl]
          match w.Get fileUrl with
          | .error err => ⟨{ message := some err }, false, t2⟩
          | .ok resp =>
            if resp.StatusCode ≠ 200 then
              ⟨{ message := some
                  ("Failed to fetch file (server returned " ++ toString resp.StatusCode ++ ").") },
                false, t2⟩
            else
              let t3 := t2 ++ [Event.readAll]
              match resp.Body with
              | .error err => ⟨{ message := some err }, false, t3⟩
              | .ok bodyBytes =>
                let keyed : Bool := 0 < cfg.Backup.BackupKey.utf8ByteSize
                let t4 := if keyed then t3 ++ [Event.decrypt bodyBytes cfg.Backup.BackupKey] else t3
                let decoded : Except String Bytes :=
                  if keyed then w.Decrypt bodyBytes cfg.Backup.BackupKey else .ok bodyBytes
                match decoded with
                | .error err => ⟨{ message := some err }, false, t4⟩
                | .ok plain =>
                  let t5 := t4 ++ [Event.writeFile fileName plain]
                  match w.WriteFile fileName plain with
                  | none =>
                    -- `err == nil`: evaluating `err.Error()` dereferences nil and panics
                    -- before `res["message"]` is assigned
                    ⟨{}, true, t5⟩
                  | some _ =>
                    -- `err != nil`: falls through to `res["succeed"] = true`
                    ⟨{ succeed := true }, false, t5⟩

/-- `Backup` of `controllers/backup.go`: the returned error, and the calls made. -/
def Backup (cfg : Configuration) (w : World) : Option String × List Event :=
  if cfg.Database.Dialect ≠ "sqlite" then
    (some "only support sqlite dialect", [])
  else if !cfg.Backup.Enabled || !cfg.Qiniu.Enabled then
    (some "backup or quniu not enabled", [])
  else
    let t1 := [Event.urlParse cfg.Database.DSN]
    match urlParse cfg.Database.DSN with
    | .error err => (some err, t1)
    | .ok u =>
      let t2 := t1 ++ [Event.pathExists u.Path]
      if !w.PathExists u.Path then
        (some "database file doesn't exists.", t2)
      else
        let t3 := t2 ++ [Event.readFile u.Path]
        match w.ReadFile u.Path with
        | .error err => (some err, t3)
        | .ok bodyBytes =>
          let keyed : Bool := 0 < cfg.Backup.BackupKey.utf8ByteSize
          let t4 := if keyed then t3 ++ [Event.encrypt bodyBytes cfg.Backup.BackupKey] else t3
          let encoded : Except String Bytes :=
            if keyed then w.Encrypt bodyBytes cfg.Backup.BackupKey else .ok bodyBytes
          match encoded with
          | .error err => (some err, t4)
          | .ok payload =>
            let token := w.UploadToken cfg.Qiniu.Bucket cfg.Qiniu.AccessKey cfg.Qiniu.SecretKey
            let fileName := "wblog_" ++ w.currentTimeStamp ++ ".db"
            let t5 := t4 ++ [Event.put fileName payload]
            match w.Put token fileName payload with
            | some err => (some err, t5)
            | none => (none, t5)

/-! ## Vocabulary of the properties -/

/-- The character class of the specification: ASCII letters, ASCII digits, `.`, `-`, `_`. -/
def IsFileNameChar (c : Char) : Prop :=
  ('a' ≤ c ∧ c ≤ 'z') ∨ ('A' ≤ c ∧ c ≤ 'Z') ∨ ('0' ≤ c ∧ c ≤ '9') ∨ c = '.' ∨ c = '-' ∨ c = '_'

/-- The ranges of the bracket expression in `fileNamePattern`. -/
def fileNameRanges : List (Char × Char) :=
  [('a', 'z'), ('A', 'Z'), ('0', '9'), ('.', '.'), ('_', '_'), ('-', '-')]

/-- Some position of the list has no input left. -/
def reachesEnd (ps : List MatchPos) : Bool := ps.any (fun p => p.2.isEmpty)

/-! ## Sample configuration and collaborators -/

/-- A configuration with every gate open, no key, and the file server of the
specification's example. -/
def sampleConfig : Configuration :=
  { Database := { Dialect := "sqlite", DSN := "wblog.db?_loc=Asia/Shanghai" },
    Backup := { Enabled := true, BackupKey := "" },
    Qiniu := { Enabled := true, FileServer := "https://files.example.com/backups",
               Bucket := "wblog", AccessKey := "ak", SecretKey := "sk" } }

/-- The sample configuration with a backup key set. -/
def keyedConfig : Configuration :=
  { sampleConfig with Backup := { Enabled := true, BackupKey := "s3cr3t-key-32-bytes-long!!" } }

/-- The bytes of `DBDATA`. -/
def dbData : Bytes := [68, 66, 68, 65, 84, 65]

/-- Collaborators that all succeed: the server answers 200 with `body`, the codec
reverses the bytes when the key is the one of `keyedConfig` and fails otherwise, the
file system holds `dbData` and accepts writes, the upload succeeds. -/
def okWorld (body : Bytes) : World :=
  { Get := fun _ => .ok { StatusCode := 200, Body := .ok body },
    Decrypt := fun data key =>
      if key = "s3cr3t-key-32-bytes-long!!" then .ok data.reverse
      else .error "cipher: message authentication failed",
    Encrypt := fun data key =>
      if key = "s3cr3t-key-32-bytes-long!!" then .ok data.reverse
      else .error "crypto/aes: invalid key size",
    WriteFile := fun _ _ => none,
    PathExists := fun _ => true,
    ReadFile := fun _ => .ok dbData,
    currentTimeStamp := "20240101120000",
    UploadToken := fun _ ak _ => ak,
    Put := fun _ _ _ => none }

/-- The collaborators of `okWorld`, except that every file write fails. -/
def readOnlyWorld (body : Bytes) : World :=
  { okWorld body with WriteFile := fun _ _ => some "open: permission denied" }

/-- The collaborators of `okWorld`, except that the server answers 404. -/
def notFoundWorld : World :=
  { okWorld [] with Get := fun _ => .ok { StatusCode := 404, Body := .ok [] } }

/-- A stage between the HTTP GET of `fileUrl` and the file write fails: the GET returns
an error, or the status is not 200, or reading the body fails, or a key is configured
and `helpers.Decrypt` returns an error. -/
def FetchStageFails (cfg : Configuration) (w : World) (fileUrl : String) : Prop :=
  (∃ err, w.Get fileUrl = .error err) ∨
  (∃ resp, w.Get fileUrl = .ok resp ∧
    (resp.StatusCode ≠ 200 ∨ (∃ err, resp.Body = .error err) ∨
      (∃ body err, resp.Body = .ok body ∧ cfg.Backup.BackupKey ≠ "" ∧
        w.Decrypt body cfg.Backup.BackupKey = .error err)))

/-- The shape of a failed run: a message, no `succeed`, no panic, no file write. -/
def FailsWithoutWrite (o : Outcome) : Prop :=
  ∃ msg t, o = ⟨{ message := some msg }, false, t⟩ ∧ ∀ path data, Event.writeFile path data ∉ t

/-- Every stage of `RestorePost` before the HTTP GET succeeds for `fileName`: the name
passes validation, the gates are open, and the URL `fileUrl` is built. -/
structure ReachesFetch (cfg : Configuration) (fileName fileUrl : String) : Prop where
  nonEmpty : fileName ≠ ""
  valid : isValidFileName fileName = true
  base : filepathBase fileName = fileName
  dialect : cfg.Database.Dialect = "sqlite"
  backupEnabled : cfg.Backup.Enabled = true
  qiniuEnabled : cfg.Qiniu.Enabled = true
  scheme : ∃ u, urlParse cfg.Qiniu.FileServer = .ok u ∧ u.Scheme = "https"
  joined : urlJoinPath cfg.Qiniu.FileServer [fileName] = .ok fileUrl

/-- Every stage of `RestorePost` before the file write succeeds for `fileName`: the
fetch is reached, the server answers 200 with `body`, and decoding the body gives
`data`. -/
structure ReachesWrite (cfg : Configuration) (w : World) (fileName fileUrl : String)
    (body data : Bytes) extends ReachesFetch cfg fileName fileUrl : Prop where
  fetched : ∃ resp, w.Get fileUrl = .ok resp ∧ resp.StatusCode = 200 ∧ resp.Body = .ok body
  decoded : (if cfg.Backup.BackupKey = "" then .ok body
    else w.Decrypt body cfg.Backup.BackupKey) = .ok data

/-- Every stage of `Backup` before the upload succeeds: the gates are open, the
connection string parses to `u`, the file at its path exists and holds `content`,
and encoding the content gives `payload`. -/
structure ReachesUpload (cfg : Configuration) (w : World) (u : URL) (content payload : Bytes) :
    Prop where
  dialect : cfg.Database.Dialect = "sqlite"
  backupEnabled : cfg.Backup.Enabled = true
  qiniuEnabled : cfg.Qiniu.Enabled = true
  dsn : urlParse cfg.Database.DSN = .ok u
  exist : w.PathExists u.Path = true
  read : w.ReadFile u.Path = .ok content
  encoded : (if cfg.Backup.BackupKey = "" then .ok content
    else w.Encrypt content cfg.Backup.BackupKey) = .ok payload

/-- The elements of a path, split at `/` and `\`. -/
def pathElements : List Char → List (List Char)
  | [] => [[]]
  | c :: t =>
    if c = '/' ∨ c = '\\' then [] :: pathElements t
    else
      match pathElements t with
      | [] => [[c]]
      | e :: es => (c :: e) :: es

/-- The path has a `..` element, the traversal sequence. -/
def hasDotDotElement (path : String) : Bool :=
  (pathElements path.toList).contains ['.', '.']

/-- The scheme and the authority of a URL text, as RFC 3986 delimits them: the scheme
is the text before the first `:`, and the authority is the text after the `//` that
follows, up to the next `/`, `?` or `#`. -/
def schemeAndAuthority (url : String) : Option (String × String) :=
  let scheme := url.toList.takeWhile (fun c => c != ':')
  let rest := (url.toList.dropWhile (fun c => c != ':')).tail
  if rest.take 2 = ['/', '/'] then
    some (String.mk scheme,
      String.mk ((rest.drop 2).takeWhile (fun c => c != '/' && c != '?' && c != '#')))
  else none

/-- No delimiter of the authority: not `/`, `?` or `#`. -/
def notDelimiter (c : Char) : Bool := c != '/' && c != '?' && c != '#'

/-! # Theorems -/

theorem inRanges_fileNameRanges (c : Char) :
    inRanges fileNameRanges c = true ↔ IsFileNameChar c := by
  have e : ∀ d : Char, (d ≤ c ∧ c ≤ d) ↔ c = d := fun d =>
    ⟨fun h => le_antisymm h.2 h.1, fun h => by subst h; exact ⟨le_refl _, le_refl _⟩⟩
  simp only [inRanges, fileNameRanges, List.any_cons, List.any_nil, Bool.or_false, Bool.or_eq_true,
    Bool.and_eq_true, decide_eq_true_eq, IsFileNameChar, e]
  tauto

theorem plusLoop_charClass_reachesEnd (ranges : List (Char × Char)) :
    ∀ (fuel n : Nat) (l : List Char), l.length ≤ fuel →
      (reachesEnd (plusLoop (Regex.charClass ranges).run fuel (n, l)) = true ↔
        l ≠ [] ∧ ∀ c ∈ l, inRanges ranges c = true) := by
  intro fuel
  induction fuel with
  | zero =>
    intro n l hl
    have : l = [] := List.length_eq_zero.mp (Nat.le_zero.mp hl)
    subst this
    simp [plusLoop, reachesEnd]
  | succ fuel ih =>
    intro n l hl
    cases l with
    | nil => simp [plusLoop, reachesEnd, Regex.run]
    | cons c t =>
      have ht : t.length ≤ fuel := by simpa using hl
      by_cases hc : inRanges ranges c = true
      · have ih' := ih (n + 1) t ht
        simp only [reachesEnd] at ih'
        cases t with
        | nil => simp [plusLoop, reachesEnd, Regex.run, hc]
        | cons d t' =>
          simp only [plusLoop, reachesEnd, Regex.run, hc, if_true, List.flatMap_cons,
            List.flatMap_nil, List.append_nil, List.length_cons, Nat.lt_succ_self, List.any_cons,
            List.isEmpty_cons, Bool.false_or, ih']
          simp [hc]
      · simp [plusLoop, reachesEnd, Regex.run, hc]

theorem run_endText_isEmpty (ps : List MatchPos) :
    (ps.flatMap Regex.endText.run).isEmpty = !reachesEnd ps := by
  induction ps with
  | nil => rfl
  | cons p ps ih =>
    rcases p with ⟨n, l⟩
    cases l with
    | nil => simp [reachesEnd, Regex.run]
    | cons c t => simpa [reachesEnd, Regex.run] using ih

theorem fileNamePattern_run_pos (n : Nat) (l : List Char) (h : n ≠ 0) :
    fileNamePattern.run (n, l) = [] := by
  simp [fileNamePattern, Regex.run, h]

theorem startPositions_no_match (l : List Char) :
    ∀ n, n ≠ 0 → (startPositions n l).any (fun st => !(fileNamePattern.run st).isEmpty) = false := by
  induction l with
  | nil => intro n h; simp [startPositions, fileNamePattern_run_pos n [] h]
  | cons c t ih =>
    intro n h
    simp [startPositions, fileNamePattern_run_pos n (c :: t) h, ih (n + 1) (Nat.succ_ne_zero n)]

theorem fileNamePattern_run_zero (l : List Char) :
    (fileNamePattern.run (0, l)).isEmpty =
      !reachesEnd (plusLoop (Regex.charClass fileNameRanges).run (l.length + 1) (0, l)) := by
  simp only [fileNamePattern, Regex.run, if_true, List.flatMap_cons, List.flatMap_nil,
    List.append_nil]
  exact run_endText_isEmpty _

theorem matchString_fileNamePattern (l : List Char) :
    (startPositions 0 l).any (fun st => !(fileNamePattern.run st).isEmpty) =
      reachesEnd (plusLoop (Regex.charClass fileNameRanges).run (l.length + 1) (0, l)) := by
  cases l with
  | nil => simp [startPositions, fileNamePattern_run_zero]
  | cons c t =>
    simp [startPositions, fileNamePattern_run_zero, startPositions_no_match t 1 (by decide)]

theorem isValidFileName_eq_true_iff (s : String) :
    isValidFileName s = true ↔ s ≠ "" ∧ ∀ c ∈ s.toList, IsFileNameChar c := by
  unfold isValidFileName Regex.matchString
  rw [matchString_fileNamePattern,
    plusLoop_charClass_reachesEnd fileNameRanges _ 0 s.toList (Nat.le_succ _)]
  have hs : s.toList ≠ [] ↔ s ≠ "" := by
    rw [Ne, Ne, String.ext_iff]; rfl
  rw [hs]
  simp only [inRanges_fileNameRanges]

/-- C1: `isValidFileName s` is true exactly when `s` is non-empty and every character
of `s` is an ASCII letter, an ASCII digit, `.`, `-` or `_`; it rejects
`"../etc/passwd"`, `"a/b.db"`, `"..\\win.db"` and `""`, and accepts
`"wblog_20240101120000.db"`. -/
theorem isValidFileName_iff :
    (∀ s : String, isValidFileName s = true ↔ s ≠ "" ∧ ∀ c ∈ s.toList, IsFileNameChar c) ∧
    isValidFileName "../etc/passwd" = false ∧
    isValidFileName "a/b.db" = false ∧
    isValidFileName "..\\win.db" = false ∧
    isValidFileName "" = false ∧
    isValidFileName "wblog_20240101120000.db" = true :=
  ⟨isValidFileName_eq_true_iff, by decide, by decide, by decide, by decide, by decide⟩

/-! ## Properties of `RestorePost` and `Backup` -/

theorem utf8ByteSize_pos_iff (s : String) : 0 < s.utf8ByteSize ↔ s ≠ "" := by
  rcases s with ⟨l⟩
  cases l with
  | nil => simp [String.utf8ByteSize, String.utf8ByteSize.go]
  | cons c t =>
    have hc := Char.utf8Size_pos c
    have hne : (String.mk (c :: t)) ≠ "" := by
      intro h
      have := congrArg String.data h
      simp at this
    simp only [String.utf8ByteSize, String.utf8ByteSize.go, ne_eq, hne, not_false_eq_true,
      iff_true]
    omega

/-- C4: when the posted `fileName` fails input validation (it is empty, or
`isValidFileName` rejects it, or `filepath.Base` changes it), `RestorePost` reports a
failure message, does not set `succeed`, and makes no call at all: no HTTP GET, no
decrypt, no file write.  `"../x.db"` is such a file name. -/
theorem RestorePost_invalid_fileName (cfg : Configuration) (w : World) (fileName : String)
    (h : fileName = "" ∨ isValidFileName fileName = false ∨ filepathBase fileName ≠ fileName) :
    ((RestorePost cfg w fileName).res.message.isSome = true ∧
      (RestorePost cfg w fileName).res.succeed = false ∧
      (RestorePost cfg w fileName).panicked = false ∧
      (RestorePost cfg w fileName).trace = []) ∧
    isValidFileName "../x.db" = false := by
  refine ⟨?_, by decide⟩
  unfold RestorePost
  by_cases h1 : fileName = ""
  · simp [h1]
  · by_cases h2 : isValidFileName fileName = true
    · have h3 : filepathBase fileName ≠ fileName := by
        rcases h with h | h | h
        · exact absurd h h1
        · rw [h2] at h; exact absurd h (by decide)
        · exact h
      simp [h1, h2, h3]
    · simp [h1, h2]

theorem RestorePost_invalid_fileName_witness :
    ((RestorePost sampleConfig (okWorld dbData) "../x.db").res.message.isSome = true ∧
      (RestorePost sampleConfig (okWorld dbData) "../x.db").res.succeed = false ∧
      (RestorePost sampleConfig (okWorld dbData) "../x.db").panicked = false ∧
      (RestorePost sampleConfig (okWorld dbData) "../x.db").trace = []) ∧
    isValidFileName "../x.db" = false :=
  RestorePost_invalid_fileName sampleConfig (okWorld dbData) "../x.db" (Or.inr (Or.inl (by decide)))

theorem RestorePost_get_error (cfg : Configuration) (w : World) (fileName fileUrl err : String)
    (hurl : urlJoinPath cfg.Qiniu.FileServer [filepathBase fileName] = .ok fileUrl)
    (hget : w.Get fileUrl = .error err) : FailsWithoutWrite (RestorePost cfg w fileName) := by
  unfold FailsWithoutWrite RestorePost
  simp only [hurl, hget]
  split_ifs <;> exact ⟨_, _, rfl, by simp⟩

theorem RestorePost_bad_status (cfg : Configuration) (w : World) (fileName fileUrl : String)
    (resp : Response)
    (hurl : urlJoinPath cfg.Qiniu.FileServer [filepathBase fileName] = .ok fileUrl)
    (hget : w.Get fileUrl = .ok resp) (hst : resp.StatusCode ≠ 200) :
    FailsWithoutWrite (RestorePost cfg w fileName) := by
  unfold FailsWithoutWrite RestorePost
  simp only [hurl, hget, hst]
  split_ifs <;> exact ⟨_, _, rfl, by simp⟩

theorem RestorePost_read_error (cfg : Configuration) (w : World) (fileName fileUrl err : String)
    (resp : Response)
    (hurl : urlJoinPath cfg.Qiniu.FileServer [filepathBase fileName] = .ok fileUrl)
    (hget : w.Get fileUrl = .ok resp) (hbody : resp.Body = .error err) :
    FailsWithoutWrite (RestorePost cfg w fileName) := by
  unfold FailsWithoutWrite RestorePost
  simp only [hurl, hget, hbody]
  split_ifs <;> exact ⟨_, _, rfl, by simp⟩

theorem RestorePost_decrypt_error (cfg : Configuration) (w : World)
    (fileName fileUrl err : String) (resp : Response) (body : Bytes)
    (hurl : urlJoinPath cfg.Qiniu.FileServer [filepathBase fileName] = .ok fileUrl)
    (hget : w.Get fileUrl = .ok resp) (hbody : resp.Body = .ok body)
    (hk : cfg.Backup.BackupKey ≠ "") (hdec : w.Decrypt body cfg.Backup.BackupKey = .error err) :
    FailsWithoutWrite (RestorePost cfg w fileName) := by
  have hkey : decide (0 < cfg.Backup.BackupKey.utf8ByteSize) = true :=
    decide_eq_true ((utf8ByteSize_pos_iff cfg.Backup.BackupKey).mpr hk)
  unfold FailsWithoutWrite RestorePost
  simp only [hurl, hget, hbody, hkey, if_true, hdec]
  split_ifs <;> exact ⟨_, _, rfl, by simp⟩

/-- C5: when the HTTP GET of the joined URL returns an error, or the status is not
200, or reading the body fails, or (with a configured key) `helpers.Decrypt` returns an
error, `RestorePost` reports a failure message, does not set `succeed`, and does not
write the local file. -/
theorem RestorePost_no_write_on_failure (cfg : Configuration) (w : World)
    (fileName fileUrl : String)
    (hurl : urlJoinPath cfg.Qiniu.FileServer [filepathBase fileName] = .ok fileUrl)
    (hfail : FetchStageFails cfg w fileUrl) :
    (RestorePost cfg w fileName).res.message.isSome = true ∧
    (RestorePost cfg w fileName).res.succeed = false ∧
    (RestorePost cfg w fileName).panicked = false ∧
    ∀ path data, Event.writeFile path data ∉ (RestorePost cfg w fileName).trace := by
  have key : FailsWithoutWrite (RestorePost cfg w fileName) := by
    rcases hfail with ⟨err, hget⟩ | ⟨resp, hget, hst | ⟨err, hbody⟩ | ⟨body, err, hbody, hk, hdec⟩⟩
    · exact RestorePost_get_error cfg w fileName fileUrl err hurl hget
    · exact RestorePost_bad_status cfg w fileName fileUrl resp hurl hget hst
    · exact RestorePost_read_error cfg w fileName fileUrl err resp hurl hget hbody
    · exact RestorePost_decrypt_error cfg w fileName fileUrl err resp body hurl hget hbody hk hdec
  obtain ⟨msg, t, h, hw⟩ := key
  rw [h]
  exact ⟨rfl, rfl, rfl, hw⟩

/-- The sample collaborators, with a server that returns a ciphertext made under
another key: `Decrypt` fails. -/
theorem RestorePost_no_write_on_failure_witness :
    (RestorePost { keyedConfig with Backup := { Enabled := true, BackupKey := "another-key" } }
        (okWorld dbData.reverse) "wblog_20240101120000.db").res.message.isSome = true ∧
    (RestorePost { keyedConfig with Backup := { Enabled := true, BackupKey := "another-key" } }
        (okWorld dbData.reverse) "wblog_20240101120000.db").res.succeed = false ∧
    (RestorePost { keyedConfig with Backup := { Enabled := true, BackupKey := "another-key" } }
        (okWorld dbData.reverse) "wblog_20240101120000.db").panicked = false ∧
    ∀ path data, Event.writeFile path data ∉
      (RestorePost { keyedConfig with Backup := { Enabled := true, BackupKey := "another-key" } }
        (okWorld dbData.reverse) "wblog_20240101120000.db").trace :=
  RestorePost_no_write_on_failure _ (okWorld dbData.reverse) "wblog_20240101120000.db"
    "https://files.example.com/backups/wblog_20240101120000.db" (by decide)
    (Or.inr ⟨{ StatusCode := 200, Body := .ok dbData.reverse }, rfl,
      Or.inr (Or.inr ⟨dbData.reverse, "cipher: message authentication failed", rfl, by decide,
        by decide⟩)⟩)

set_option maxHeartbeats 1000000 in
theorem RestorePost_of_reachesWrite (cfg : Configuration) (w : World)
    (fileName fileUrl : String) (body data : Bytes)
    (r : ReachesWrite cfg w fileName fileUrl body data) :
    RestorePost cfg w fileName =
      ⟨(match w.WriteFile fileName data with
        | none => {}
        | some _ => { succeed := true }),
       (w.WriteFile fileName data).isNone,
       [Event.urlParse cfg.Qiniu.FileServer, Event.httpGet fileUrl, Event.readAll] ++
        (if cfg.Backup.BackupKey = "" then [] else [Event.decrypt body cfg.Backup.BackupKey]) ++
        [Event.writeFile fileName data]⟩ := by
  obtain ⟨u, hu, hs⟩ := r.scheme
  obtain ⟨resp, hg, hst, hb⟩ := r.fetched
  have hdec := r.decoded
  unfold RestorePost
  simp only [r.nonEmpty, r.valid, r.base, r.dialect, r.backupEnabled, r.qiniuEnabled, hu, hs,
    r.joined, hg, hst, hb, if_false, ne_eq, not_true_eq_false, Bool.not_true, Bool.or_self,
    Bool.false_eq_true, decide_True]
  by_cases hk : cfg.Backup.BackupKey = ""
  · have hkey : decide (0 < cfg.Backup.BackupKey.utf8ByteSize) = false := by
      rw [hk]; rfl
    rw [if_pos hk] at hdec
    have hbd : body = data := by injection hdec
    subst hbd
    simp only [hkey, if_pos hk, Bool.false_eq_true, if_false]
    cases w.WriteFile fileName body <;> rfl
  · have hkey : decide (0 < cfg.Backup.BackupKey.utf8ByteSize) = true :=
      decide_eq_true ((utf8ByteSize_pos_iff cfg.Backup.BackupKey).mpr hk)
    rw [if_neg hk] at hdec
    simp only [hkey, if_neg hk, if_true, hdec]
    cases w.WriteFile fileName data <;> rfl

set_option maxHeartbeats 1000000 in
theorem reachesWrite_of_write (cfg : Configuration) (w : World) (fileName path : String)
    (data : Bytes) (h : Event.writeFile path data ∈ (RestorePost cfg w fileName).trace) :
    path = fileName ∧ ∃ fileUrl body, ReachesWrite cfg w fileName fileUrl body data := by
  unfold RestorePost at h
  dsimp only at h
  by_cases h1 : fileName = ""
  · rw [if_pos h1] at h; simp at h
  rw [if_neg h1] at h
  by_cases h2 : (!isValidFileName fileName) = true
  · rw [if_pos h2] at h; simp at h
  rw [if_neg h2] at h
  by_cases h3 : filepathBase fileName ≠ fileName
  · rw [if_pos h3] at h; simp at h
  rw [if_neg h3] at h
  by_cases h4 : cfg.Database.Dialect ≠ "sqlite"
  · rw [if_pos h4] at h; simp at h
  rw [if_neg h4] at h
  by_cases h5 : (!cfg.Backup.Enabled || !cfg.Qiniu.Enabled) = true
  · rw [if_pos h5] at h; simp at h
  rw [if_neg h5] at h
  split at h
  · simp at h
  rename_i h6
  have h3' : filepathBase fileName = fileName := not_not.mp h3
  rw [h3'] at h
  cases hj : urlJoinPath cfg.Qiniu.FileServer [fileName] with
  | error e => rw [hj] at h; simp at h
  | ok fileUrl =>
    rw [hj] at h
    dsimp only at h
    cases hg : w.Get fileUrl with
    | error e => rw [hg] at h; simp at h
    | ok resp =>
      rw [hg] at h
      dsimp only at h
      by_cases hs : resp.StatusCode ≠ 200
      · rw [if_pos hs] at h; simp at h
      rw [if_neg hs] at h
      cases hb : resp.Body with
      | error e => rw [hb] at h; simp at h
      | ok body =>
        rw [hb] at h
        dsimp only at h
        have hscheme : ∃ u, urlParse cfg.Qiniu.FileServer = .ok u ∧ u.Scheme = "https" := by
          cases hp : urlParse cfg.Qiniu.FileServer with
          | error e => simp [hp] at h6
          | ok u => exact ⟨u, rfl, by simpa [hp] using h6⟩
        have hen : cfg.Backup.Enabled = true ∧ cfg.Qiniu.Enabled = true := by
          simpa using h5
        by_cases hk : cfg.Backup.BackupKey = ""
        · have hkey : decide (0 < cfg.Backup.BackupKey.utf8ByteSize) = false := by
            rw [hk]; rfl
          simp only [hkey, Bool.false_eq_true, if_false] at h
          have hmem : path = fileName ∧ data = body := by
            cases hw : w.WriteFile fileName body <;> simp [hw] at h <;> exact h
          refine ⟨hmem.1, fileUrl, body, ⟨⟨h1, by simpa using h2, h3', not_not.mp h4, hen.1, hen.2,
            hscheme, hj⟩, ⟨resp, hg, not_not.mp hs, hb⟩, ?_⟩⟩
          rw [if_pos hk, hmem.2]
        · have hkey : decide (0 < cfg.Backup.BackupKey.utf8ByteSize) = true :=
            decide_eq_true ((utf8ByteSize_pos_iff cfg.Backup.BackupKey).mpr hk)
          simp only [hkey, if_true] at h
          cases hd : w.Decrypt body cfg.Backup.BackupKey with
          | error e => rw [hd] at h; simp at h
          | ok plain =>
            rw [hd] at h
            have hmem : path = fileName ∧ data = plain := by
              cases hw : w.WriteFile fileName plain <;> simp [hw] at h <;> exact h
            refine ⟨hmem.1, fileUrl, body, ⟨⟨h1, by simpa using h2, h3', not_not.mp h4, hen.1,
              hen.2, hscheme, hj⟩, ⟨resp, hg, not_not.mp hs, hb⟩, ?_⟩⟩
            rw [if_neg hk, hd, hmem.2]

/-- C6: the final check of `RestorePost` is `err == nil` where the contract needs
`err != nil`.  When the write succeeds the handler evaluates `err.Error()` on a nil
error and panics, with neither `succeed` nor a message set; when the write fails the
handler sets `succeed = true` and reports no message. -/
theorem RestorePost_final_check_inverted :
    RestorePost sampleConfig (okWorld dbData) "wblog_20240101120000.db" =
      ⟨{ message := none, succeed := false }, true,
        [.urlParse "https://files.example.com/backups",
         .httpGet "https://files.example.com/backups/wblog_20240101120000.db", .readAll,
         .writeFile "wblog_20240101120000.db" dbData]⟩ ∧
    (readOnlyWorld dbData).WriteFile "wblog_20240101120000.db" dbData =
      some "open: permission denied" ∧
    RestorePost sampleConfig (readOnlyWorld dbData) "wblog_20240101120000.db" =
      ⟨{ message := none, succeed := true }, false,
        [.urlParse "https://files.example.com/backups",
         .httpGet "https://files.example.com/backups/wblog_20240101120000.db", .readAll,
         .writeFile "wblog_20240101120000.db" dbData]⟩ := by
  decide

/-- Whatever `RestorePost` writes, it writes under the posted `fileName`. -/
theorem RestorePost_write_path (cfg : Configuration) (w : World) (fileName path : String)
    (data : Bytes) (h : Event.writeFile path data ∈ (RestorePost cfg w fileName).trace) :
    path = fileName ∧ filepathBase fileName = fileName ∧ isValidFileName fileName = true := by
  obtain ⟨hp, fileUrl, body, r⟩ := reachesWrite_of_write cfg w fileName path data h
  exact ⟨hp, r.base, r.valid⟩

/-- A run of `RestorePost` does not depend on the connection string
`cfg.Database.DSN`: the handler never reads it. -/
theorem RestorePost_ignores_DSN (cfg : Configuration) (w : World) (fileName dsn : String) :
    RestorePost { cfg with Database := { cfg.Database with DSN := dsn } } w fileName =
      RestorePost cfg w fileName := rfl

/-- C7: with the connection string `wblog.db?_loc=Asia/Shanghai`, the local database
file is `wblog.db`, the path component of the connection string, and `Backup` reads
that file.  A restore of `wblog_20240101120000.db` under the same configuration
reaches the final write and passes the posted name `wblog_20240101120000.db` to it;
it never writes `wblog.db`. -/
theorem RestorePost_does_not_write_database_file :
    (urlParse sampleConfig.Database.DSN).map (fun u => u.Path) = .ok "wblog.db" ∧
    Event.readFile "wblog.db" ∈ (Backup sampleConfig (okWorld dbData)).2 ∧
    (RestorePost sampleConfig (okWorld dbData) "wblog_20240101120000.db").trace =
      [.urlParse "https://files.example.com/backups",
       .httpGet "https://files.example.com/backups/wblog_20240101120000.db", .readAll,
       .writeFile "wblog_20240101120000.db" dbData] ∧
    ∀ data, Event.writeFile "wblog.db" data ∉
      (RestorePost sampleConfig (okWorld dbData) "wblog_20240101120000.db").trace := by
  refine ⟨by decide, by decide, by decide, ?_⟩
  intro data h
  have hp := (RestorePost_write_path sampleConfig (okWorld dbData) "wblog_20240101120000.db"
    "wblog.db" data h).1
  exact absurd hp (by decide)

set_option maxHeartbeats 1000000 in
theorem reachesFetch_of_get (cfg : Configuration) (w : World) (fileName fileUrl : String)
    (h : Event.httpGet fileUrl ∈ (RestorePost cfg w fileName).trace) :
    ReachesFetch cfg fileName fileUrl := by
  unfold RestorePost at h
  dsimp only at h
  by_cases h1 : fileName = ""
  · rw [if_pos h1] at h; simp at h
  rw [if_neg h1] at h
  by_cases h2 : (!isValidFileName fileName) = true
  · rw [if_pos h2] at h; simp at h
  rw [if_neg h2] at h
  by_cases h3 : filepathBase fileName ≠ fileName
  · rw [if_pos h3] at h; simp at h
  rw [if_neg h3] at h
  by_cases h4 : cfg.Database.Dialect ≠ "sqlite"
  · rw [if_pos h4] at h; simp at h
  rw [if_neg h4] at h
  by_cases h5 : (!cfg.Backup.Enabled || !cfg.Qiniu.Enabled) = true
  · rw [if_pos h5] at h; simp at h
  rw [if_neg h5] at h
  split at h
  · simp at h
  rename_i h6
  have h3' : filepathBase fileName = fileName := not_not.mp h3
  rw [h3'] at h
  have hscheme : ∃ u, urlParse cfg.Qiniu.FileServer = .ok u ∧ u.Scheme = "https" := by
    cases hp : urlParse cfg.Qiniu.FileServer with
    | error e => simp [hp] at h6
    | ok u => exact ⟨u, rfl, by simpa [hp] using h6⟩
  have hen : cfg.Backup.Enabled = true ∧ cfg.Qiniu.Enabled = true := by
    simpa using h5
  cases hj : urlJoinPath cfg.Qiniu.FileServer [fileName] with
  | error e => rw [hj] at h; simp at h
  | ok url =>
    rw [hj] at h
    dsimp only at h
    have hurl : fileUrl = url := by
      repeat' split at h
      all_goals simpa using h
    subst hurl
    exact ⟨h1, by simpa using h2, h3', not_not.mp h4, hen.1, hen.2, hscheme, hj⟩

set_option maxHeartbeats 1000000 in
theorem reachesUpload_of_put (cfg : Configuration) (w : World) (name : String) (payload : Bytes)
    (h : Event.put name payload ∈ (Backup cfg w).2) :
    name = "wblog_" ++ w.currentTimeStamp ++ ".db" ∧
    ∃ u content, ReachesUpload cfg w u content payload := by
  unfold Backup at h
  dsimp only at h
  by_cases h4 : cfg.Database.Dialect ≠ "sqlite"
  · rw [if_pos h4] at h; simp at h
  rw [if_neg h4] at h
  by_cases h5 : (!cfg.Backup.Enabled || !cfg.Qiniu.Enabled) = true
  · rw [if_pos h5] at h; simp at h
  rw [if_neg h5] at h
  have hen : cfg.Backup.Enabled = true ∧ cfg.Qiniu.Enabled = true := by
    simpa using h5
  cases hp : urlParse cfg.Database.DSN with
  | error e => rw [hp] at h; simp at h
  | ok u =>
    rw [hp] at h
    dsimp only at h
    by_cases he : (!w.PathExists u.Path) = true
    · rw [if_pos he] at h; simp at h
    rw [if_neg he] at h
    cases hr : w.ReadFile u.Path with
    | error e => rw [hr] at h; simp at h
    | ok content =>
      rw [hr] at h
      dsimp only at h
      by_cases hk : cfg.Backup.BackupKey = ""
      · have hkey : decide (0 < cfg.Backup.BackupKey.utf8ByteSize) = false := by
          rw [hk]; rfl
        simp only [hkey, Bool.false_eq_true, if_false] at h
        have hmem : name = "wblog_" ++ w.currentTimeStamp ++ ".db" ∧ payload = content := by
          cases hw : w.Put (w.UploadToken cfg.Qiniu.Bucket cfg.Qiniu.AccessKey cfg.Qiniu.SecretKey)
            ("wblog_" ++ w.currentTimeStamp ++ ".db") content <;> simp [hw] at h <;> exact h
        refine ⟨hmem.1, u, content, ⟨not_not.mp h4, hen.1, hen.2, hp, by simpa using he, hr, ?_⟩⟩
        rw [if_pos hk, hmem.2]
      · have hkey : decide (0 < cfg.Backup.BackupKey.utf8ByteSize) = true :=
          decide_eq_true ((utf8ByteSize_pos_iff cfg.Backup.BackupKey).mpr hk)
        simp only [hkey, if_true] at h
        cases hd : w.Encrypt content cfg.Backup.BackupKey with
        | error e => rw [hd] at h; simp at h
        | ok cipher =>
          rw [hd] at h
          have hmem : name = "wblog_" ++ w.currentTimeStamp ++ ".db" ∧ payload = cipher := by
            cases hw : w.Put (w.UploadToken cfg.Qiniu.Bucket cfg.Qiniu.AccessKey cfg.Qiniu.SecretKey)
              ("wblog_" ++ w.currentTimeStamp ++ ".db") cipher <;> simp [hw] at h <;> exact h
          refine ⟨hmem.1, u, content, ⟨not_not.mp h4, hen.1, hen.2, hp, by simpa using he, hr, ?_⟩⟩
          rw [if_neg hk, hd, hmem.2]

/-- C9: backup followed by restore round-trips the database bytes.  Assume that
`helpers.Decrypt` inverts `helpers.Encrypt` on `x` under the configured key.  If
`Backup` reads the content `x` and uploads the payload `P`, and `RestorePost` under
the same configuration fetches exactly `P` with status 200, then `RestorePost` passes
exactly `x` to the file write.  With an empty key `P = x`; with a non-empty key
`P = Encrypt(x, k)` and the written bytes are `Decrypt(P, k)`. -/
theorem backup_restore_roundtrip (cfg : Configuration) (w : World) (u : URL) (x P : Bytes)
    (name fileName fileUrl : String)
    (hcodec : ∀ c, cfg.Backup.BackupKey ≠ "" → w.Encrypt x cfg.Backup.BackupKey = .ok c →
      w.Decrypt c cfg.Backup.BackupKey = .ok x)
    (hdsn : urlParse cfg.Database.DSN = .ok u) (hread : w.ReadFile u.Path = .ok x)
    (hput : Event.put name P ∈ (Backup cfg w).2)
    (hfetch : Event.httpGet fileUrl ∈ (RestorePost cfg w fileName).trace)
    (hget : w.Get fileUrl = .ok { StatusCode := 200, Body := .ok P }) :
    Event.writeFile fileName x ∈ (RestorePost cfg w fileName).trace ∧
    (∀ path data, Event.writeFile path data ∈ (RestorePost cfg w fileName).trace → data = x) ∧
    (cfg.Backup.BackupKey = "" → P = x) ∧
    (cfg.Backup.BackupKey ≠ "" →
      w.Encrypt x cfg.Backup.BackupKey = .ok P ∧ w.Decrypt P cfg.Backup.BackupKey = .ok x) := by
  obtain ⟨-, u', content, up⟩ := reachesUpload_of_put cfg w name P hput
  have hu : u' = u := by
    have := up.dsn.symm.trans hdsn
    injection this
  subst hu
  have hc : content = x := by
    have := up.read.symm.trans hread
    injection this
  subst hc
  have henc := up.encoded
  have rf := reachesFetch_of_get cfg w fileName fileUrl hfetch
  have hplain : cfg.Backup.BackupKey = "" → P = content := by
    intro hk
    rw [if_pos hk] at henc
    injection henc with h
    exact h.symm
  have hkeyed : cfg.Backup.BackupKey ≠ "" →
      w.Encrypt content cfg.Backup.BackupKey = .ok P ∧
      w.Decrypt P cfg.Backup.BackupKey = .ok content := by
    intro hk
    rw [if_neg hk] at henc
    exact ⟨henc, hcodec P hk henc⟩
  have rw' : ReachesWrite cfg w fileName fileUrl P content := by
    refine ⟨rf, ⟨_, hget, rfl, rfl⟩, ?_⟩
    by_cases hk : cfg.Backup.BackupKey = ""
    · rw [if_pos hk, hplain hk]
    · rw [if_neg hk]; exact (hkeyed hk).2
  have hrun := RestorePost_of_reachesWrite cfg w fileName fileUrl P content rw'
  refine ⟨?_, ?_, hplain, hkeyed⟩
  · rw [hrun]; simp
  · intro path data hmem
    rw [hrun] at hmem
    by_cases hk : cfg.Backup.BackupKey = "" <;> simp [hk] at hmem <;> exact hmem.2

/-- Scenario B of the specification, with the sample codec: the database holds
`DBDATA`, the backup uploads its encryption, and the restore fetches that payload. -/
theorem backup_restore_roundtrip_witness :
    Event.writeFile "wblog_20240101120000.db" dbData ∈
      (RestorePost keyedConfig (okWorld dbData.reverse) "wblog_20240101120000.db").trace ∧
    (∀ path data, Event.writeFile path data ∈
      (RestorePost keyedConfig (okWorld dbData.reverse) "wblog_20240101120000.db").trace →
        data = dbData) ∧
    (keyedConfig.Backup.BackupKey = "" → dbData.reverse = dbData) ∧
    (keyedConfig.Backup.BackupKey ≠ "" →
      (okWorld dbData.reverse).Encrypt dbData keyedConfig.Backup.BackupKey = .ok dbData.reverse ∧
      (okWorld dbData.reverse).Decrypt dbData.reverse keyedConfig.Backup.BackupKey = .ok dbData) :=
  backup_restore_roundtrip keyedConfig (okWorld dbData.reverse)
    { Path := "wblog.db", RawQuery := "_loc=Asia/Shanghai" } dbData dbData.reverse
    "wblog_20240101120000.db" "wblog_20240101120000.db"
    "https://files.example.com/backups/wblog_20240101120000.db"
    (by
      intro c _ h
      have hc : c = dbData.reverse := by
        have h' : (Except.ok dbData.reverse : Except String Bytes) = .ok c := h
        injection h' with h''
        exact h''.symm
      subst hc
      decide)
    (by decide) (by decide) (by decide) (by decide) rfl

set_option maxHeartbeats 1000000 in
theorem Backup_passes_open_gate (cfg : Configuration) (w : World)
    (hd : cfg.Database.Dialect = "sqlite") (hb : cfg.Backup.Enabled = true)
    (hq : cfg.Qiniu.Enabled = true) :
    (Backup cfg w).2.head? = some (Event.urlParse cfg.Database.DSN) := by
  unfold Backup
  simp only [hd, hb, hq, ne_eq, not_true_eq_false, if_false, Bool.not_true, Bool.or_self,
    Bool.false_eq_true]
  repeat' split
  all_goals simp

set_option maxHeartbeats 1000000 in
theorem RestorePost_passes_open_gate (cfg : Configuration) (w : World) (fileName : String)
    (hne : fileName ≠ "") (hv : isValidFileName fileName = true)
    (hbase : filepathBase fileName = fileName)
    (hd : cfg.Database.Dialect = "sqlite") (hb : cfg.Backup.Enabled = true)
    (hq : cfg.Qiniu.Enabled = true) :
    (RestorePost cfg w fileName).trace.head? = some (Event.urlParse cfg.Qiniu.FileServer) := by
  unfold RestorePost
  simp only [hne, hv, hbase, hd, hb, hq, ne_eq, not_true_eq_false, if_false, Bool.not_true,
    Bool.or_self, Bool.false_eq_true]
  repeat' split
  all_goals simp

/-- C8: policy gating.  When the dialect is not `sqlite`, or backup is disabled, or
the remote storage is disabled, `Backup` returns an error without making any call (no
DSN parse, no file read, no upload), and `RestorePost`, on a file name that passes
validation, reports a failure message without making any call (no HTTP GET, no file
write).  When all three conditions hold, both operations pass the policy check and go
on to their next step, the parse of the connection string and of the file server URL. -/
theorem policy_gating (cfg : Configuration) (w : World) (fileName : String)
    (hne : fileName ≠ "") (hv : isValidFileName fileName = true)
    (hbase : filepathBase fileName = fileName) :
    ((cfg.Database.Dialect ≠ "sqlite" ∨ cfg.Backup.Enabled = false ∨ cfg.Qiniu.Enabled = false) →
      (Backup cfg w).1.isSome = true ∧ (Backup cfg w).2 = [] ∧
      (RestorePost cfg w fileName).res.message.isSome = true ∧
      (RestorePost cfg w fileName).res.succeed = false ∧
      (RestorePost cfg w fileName).panicked = false ∧
      (RestorePost cfg w fileName).trace = []) ∧
    ((cfg.Database.Dialect = "sqlite" ∧ cfg.Backup.Enabled = true ∧ cfg.Qiniu.Enabled = true) →
      (Backup cfg w).2.head? = some (Event.urlParse cfg.Database.DSN) ∧
      (RestorePost cfg w fileName).trace.head? = some (Event.urlParse cfg.Qiniu.FileServer)) := by
  constructor
  · intro hgate
    by_cases hd : cfg.Database.Dialect = "sqlite"
    · have hen : (!cfg.Backup.Enabled || !cfg.Qiniu.Enabled) = true := by
        rcases hgate with h | h | h
        · exact absurd hd h
        · simp [h]
        · simp [h]
      unfold Backup RestorePost
      simp [hne, hv, hbase, hd, hen]
    · unfold Backup RestorePost
      simp [hne, hv, hbase, hd]
  · rintro ⟨hd, hb, hq⟩
    exact ⟨Backup_passes_open_gate cfg w hd hb hq,
      RestorePost_passes_open_gate cfg w fileName hne hv hbase hd hb hq⟩

/-- The sample configuration with the remote storage disabled. -/
theorem policy_gating_witness :
    (({ sampleConfig with Qiniu := { sampleConfig.Qiniu with Enabled := false } } :
          Configuration).Database.Dialect ≠ "sqlite" ∨
        ({ sampleConfig with Qiniu := { sampleConfig.Qiniu with Enabled := false } } :
          Configuration).Backup.Enabled = false ∨
        ({ sampleConfig with Qiniu := { sampleConfig.Qiniu with Enabled := false } } :
          Configuration).Qiniu.Enabled = false) ∧
    (Backup { sampleConfig with Qiniu := { sampleConfig.Qiniu with Enabled := false } }
      (okWorld dbData)).2 = [] ∧
    (RestorePost { sampleConfig with Qiniu := { sampleConfig.Qiniu with Enabled := false } }
      (okWorld dbData) "wblog_20240101120000.db").trace = [] ∧
    (Backup sampleConfig (okWorld dbData)).2.head? =
      some (Event.urlParse "wblog.db?_loc=Asia/Shanghai") :=
  ⟨Or.inr (Or.inr rfl),
    ((policy_gating { sampleConfig with Qiniu := { sampleConfig.Qiniu with Enabled := false } }
      (okWorld dbData) "wblog_20240101120000.db" (by decide) (by decide) (by decide)).1
        (Or.inr (Or.inr rfl))).2.1,
    ((policy_gating { sampleConfig with Qiniu := { sampleConfig.Qiniu with Enabled := false } }
      (okWorld dbData) "wblog_20240101120000.db" (by decide) (by decide) (by decide)).1
        (Or.inr (Or.inr rfl))).2.2.2.2.2,
    ((policy_gating sampleConfig (okWorld dbData) "wblog_20240101120000.db" (by decide)
      (by decide) (by decide)).2 ⟨rfl, rfl, rfl⟩).1⟩

/-- A name that passes `isValidFileName` has neither a slash nor a backslash. -/
theorem isValidFileName_no_separator (fileName : String) (h : isValidFileName fileName = true) :
    '/' ∉ fileName.toList ∧ '\\' ∉ fileName.toList := by
  have hall := ((isValidFileName_eq_true_iff fileName).mp h).2
  constructor
  · intro hmem
    exact absurd (hall _ hmem) (by unfold IsFileNameChar; decide)
  · intro hmem
    exact absurd (hall _ hmem) (by unfold IsFileNameChar; decide)

/-! ## Path traversal through the validated file name -/

/-- C2: the file name `..` passes all three checks of the input validation of
`RestorePost` (it is not empty, `isValidFileName` accepts it, `filepath.Base` returns
it unchanged), and it is the traversal sequence `..`. -/
theorem validation_accepts_dotdot :
    (".." : String) ≠ "" ∧ isValidFileName ".." = true ∧ filepathBase ".." = ".." ∧
    hasDotDotElement ".." = true ∧
    (RestorePost sampleConfig notFoundWorld "..").trace ≠ [] := by
  decide

/-- C3: with the trusted base `https://files.example.com/backups`, the validated file
name `..` makes `url.JoinPath` build `https://files.example.com/`, and `RestorePost`
fetches it: the path `/` of the request does not start with the path `/backups` of the
base. -/
theorem RestorePost_dotdot_leaves_base_path :
    isValidFileName ".." = true ∧ filepathBase ".." = ".." ∧
    urlJoinPath "https://files.example.com/backups" [".."] = .ok "https://files.example.com/" ∧
    (RestorePost sampleConfig notFoundWorld "..").trace =
      [.urlParse "https://files.example.com/backups", .httpGet "https://files.example.com/"] ∧
    (urlParse "https://files.example.com/backups").map (fun u => u.Path) = .ok "/backups" ∧
    (urlParse "https://files.example.com/").map (fun u => u.Path) = .ok "/" ∧
    "/backups".toList.isPrefixOf "/".toList = false := by
  decide

/-- C10, as stated, fails: the base `https://` has the scheme `https` and an empty
host; with the validated file name `evil.com`, `url.JoinPath` builds
`https://evil.com`, whose host is `evil.com`, and `RestorePost` fetches it. -/
theorem joinPath_hostless_base_changes_host :
    (urlParse "https://").map (fun u => (u.Scheme, u.Host)) = .ok ("https", "") ∧
    schemeAndAuthority "https://" = some ("https", "") ∧
    isValidFileName "evil.com" = true ∧ filepathBase "evil.com" = "evil.com" ∧
    urlJoinPath "https://" ["evil.com"] = .ok "https://evil.com" ∧
    schemeAndAuthority "https://evil.com" = some ("https", "evil.com") ∧
    (urlParse "https://evil.com").map (fun u => (u.Scheme, u.Host)) = .ok ("https", "evil.com") ∧
    (RestorePost { sampleConfig with Qiniu := { sampleConfig.Qiniu with FileServer := "https://" } }
      notFoundWorld "evil.com").trace = [.urlParse "https://", .httpGet "https://evil.com"] := by
  decide

/-! ## The URL built by `url.JoinPath` -/

theorem setPath_eq (u v : URL) (p : String) (h : u.setPath p = .ok v) :
    ∃ path rawPath, v = { u with Path := path, RawPath := rawPath } := by
  unfold URL.setPath at h
  split at h
  · exact absurd h (by simp)
  · rename_i path _
    injection h with h
    exact ⟨path, _, h.symm⟩

theorem setFragment_eq (u v : URL) (f : String) (h : u.setFragment f = .ok v) :
    ∃ frag rawFrag, v = { u with Fragment := frag, RawFragment := rawFrag } := by
  unfold URL.setFragment at h
  split at h
  · exact absurd h (by simp)
  · rename_i frag _
    injection h with h
    exact ⟨frag, _, h.symm⟩

/-- `(*URL).JoinPath` changes no field other than `Path` and `RawPath`. -/
theorem JoinPath_eq (u : URL) (elem : List String) :
    ∃ path rawPath, u.JoinPath elem = { u with Path := path, RawPath := rawPath } := by
  unfold URL.JoinPath
  dsimp only
  split
  · rename_i v hv
    exact setPath_eq u v _ hv
  · exact ⟨u.Path, u.RawPath, rfl⟩

/-- A URL parsed by `parse` with a host has no opaque part. -/
theorem parseNoFragment_opaque (rawURL : List Char) (u : URL)
    (h : parseNoFragment rawURL = .ok u) (hh : u.Host ≠ "") : u.Opaque = "" := by
  unfold parseNoFragment at h
  dsimp only at h
  repeat' split at h
  all_goals first
    | (obtain ⟨p, rp, hv⟩ := setPath_eq _ _ _ h; subst hv; rfl)
    | (cases h; first | rfl | exact absurd rfl hh)
    | cases h

theorem urlParse_opaque (base : String) (u : URL) (h : urlParse base = .ok u)
    (hh : u.Host ≠ "") : u.Opaque = "" := by
  unfold urlParse at h
  dsimp only at h
  split at h
  · exact absurd h (by simp)
  · rename_i url hurl
    split_ifs at h
    · injection h with h; subst h
      exact parseNoFragment_opaque _ _ hurl hh
    · split at h
      · exact absurd h (by simp)
      · rename_i url' hf
        injection h with h; subst h
        obtain ⟨f, rf, hv⟩ := setFragment_eq _ _ _ hf
        subst hv
        exact parseNoFragment_opaque _ url hurl hh
theorem head?_append_of_head? (a b : String) (c : Char) (h : a.toList.head? = some c) :
    (a ++ b).toList.head? = some c := by
  simp only [String.toList, String.data_append, List.head?_append] at h ⊢
  rw [h]; rfl

/-- The text of a URL with scheme `https`, a host and no opaque part: the scheme, the
authority, and a rest that is empty or starts the path, the query or the fragment. -/
theorem string_of_https_host (v : URL) (hs : v.Scheme = "https") (hh : v.Host ≠ "")
    (ho : v.Opaque = "") :
    ∃ tail, v.string = "https://" ++ userinfoAt v.User ++ escape v.Host .encodeHost ++ tail ∧
      (tail = "" ∨ tail.toList.head? = some '/' ∨ tail.toList.head? = some '?' ∨
        tail.toList.head? = some '#') := by
  have hhead : ∀ x : String, ("https:" ++ ("//" ++ userinfoAt v.User ++ escape v.Host .encodeHost) ++ x : String) ≠ "" := by
    intro x h
    have := congrArg String.data h
    simp [String.data_append] at this
  refine ⟨(if v.EscapedPath ≠ "" ∧ v.EscapedPath.toList.head? ≠ some '/' ∧ v.Host ≠ "" then "/"
      else "") ++ v.EscapedPath ++ (if v.ForceQuery ∨ v.RawQuery ≠ "" then "?" ++ v.RawQuery else "")
      ++ (if v.Fragment ≠ "" then "#" ++ v.EscapedFragment else ""), ?_, ?_⟩
  · unfold URL.string URL.authorityString
    simp only [hs, hh, ho, ne_eq, not_true_eq_false, not_false_eq_true, true_or, or_true, if_true,
      if_false, and_true, false_and, and_false, hhead, String.append_empty]
    simp only [String.append_assoc]
    rfl
  · by_cases hp : v.EscapedPath = ""
    · simp only [hp, ne_eq, not_true_eq_false, false_and, if_false, String.append_empty,
        String.empty_append]
      by_cases hq : v.ForceQuery ∨ v.RawQuery ≠ ""
      · right; right; left
        rw [if_pos hq]
        exact head?_append_of_head? _ _ _ (head?_append_of_head? _ _ _ rfl)
      · rw [if_neg hq, String.empty_append]
        by_cases hf : v.Fragment ≠ ""
        · right; right; right
          rw [if_pos hf]
          exact head?_append_of_head? _ _ _ rfl
        · left; rw [if_neg hf]
    · right; left
      by_cases hsl : v.EscapedPath.toList.head? = some '/'
      · have : ¬(v.EscapedPath ≠ "" ∧ v.EscapedPath.toList.head? ≠ some '/' ∧ v.Host ≠ "") := by
          intro h; exact h.2.1 hsl
        rw [if_neg this, String.empty_append]
        exact head?_append_of_head? _ _ _ (head?_append_of_head? _ _ _ hsl)
      · rw [if_pos ⟨hp, hsl, hh⟩]
        exact head?_append_of_head? _ _ _ (head?_append_of_head? _ _ _
          (head?_append_of_head? _ _ _ rfl))

theorem upperhex_notDelimiter (n : Nat) : notDelimiter (upperhex n) = true := by
  unfold upperhex
  by_cases h : n < 16
  · interval_cases n <;> decide
  · rw [List.getD_eq_default _ _ (by simpa using h)]
    decide

theorem escape_notDelimiter (s : String) (mode : Encoding)
    (hmode : mode = .encodeHost ∨ mode = .encodeUserPassword) :
    ∀ c ∈ (escape s mode).toList, notDelimiter c = true := by
  intro c hc
  unfold escape at hc
  simp only [String.toList, List.mem_flatMap] at hc
  obtain ⟨x, -, hx⟩ := hc
  split_ifs at hx with h1 h2
  · simp only [List.mem_singleton] at hx; subst hx; decide
  · simp only [List.mem_cons, List.mem_singleton, List.not_mem_nil, or_false] at hx
    rcases hx with h | h | h
    · subst h; decide
    · subst h; exact upperhex_notDelimiter _
    · subst h; exact upperhex_notDelimiter _
  · simp only [List.mem_singleton] at hx
    subst hx
    have hne : ∀ d : Char, shouldEscape d mode = true → c ≠ d := by
      intro d hd hcd
      rw [hcd] at h1
      exact h1 hd
    have h1 : c ≠ '/' := hne '/' (by rcases hmode with h | h <;> subst h <;> decide)
    have h2 : c ≠ '?' := hne '?' (by rcases hmode with h | h <;> subst h <;> decide)
    have h3 : c ≠ '#' := hne '#' (by rcases hmode with h | h <;> subst h <;> decide)
    simp [notDelimiter, h1, h2, h3]

theorem userinfoAt_notDelimiter (user : Option Userinfo) :
    ∀ c ∈ (userinfoAt user).toList, notDelimiter c = true := by
  intro c hc
  cases user with
  | none => simp [userinfoAt] at hc
  | some ui =>
    unfold userinfoAt Userinfo.string at hc
    simp only [String.toList, String.data_append, List.mem_append] at hc
    rcases hc with (h | h) | h
    · exact escape_notDelimiter _ _ (Or.inr rfl) c h
    · split_ifs at h
      · simp only [String.data_append, List.mem_append] at h
        rcases h with h | h
        · have : c = ':' := by simpa using h
          subst this; decide
        · exact escape_notDelimiter _ _ (Or.inr rfl) c h
      · simp at h
    · have : c = '@' := by simpa using h
      subst this; decide

theorem takeWhile_append_stop {p : Char → Bool} (a t : List Char) (ha : ∀ c ∈ a, p c = true)
    (ht : t = [] ∨ ∃ c, t.head? = some c ∧ p c = false) :
    (a ++ t).takeWhile p = a := by
  induction a with
  | nil =>
    rcases ht with h | ⟨c, hc, hp⟩
    · subst h; rfl
    · cases t with
      | nil => rfl
      | cons d t' =>
        simp only [List.head?_cons, Option.some.injEq] at hc
        subst hc
        simp [List.takeWhile_cons, hp]
  | cons x a ih =>
    have hx := ha x (List.mem_cons_self _ _)
    simp only [List.cons_append, List.takeWhile_cons, hx, if_true]
    rw [ih (fun c hc => ha c (List.mem_cons_of_mem _ hc))]

/-- The scheme and authority of `https://` followed by an authority text without
delimiter and a rest that is empty or starts with a delimiter. -/
theorem schemeAndAuthority_https (authority tail : String)
    (ha : ∀ c ∈ authority.toList, notDelimiter c = true)
    (ht : tail = "" ∨ tail.toList.head? = some '/' ∨ tail.toList.head? = some '?' ∨
      tail.toList.head? = some '#') :
    schemeAndAuthority ("https://" ++ authority ++ tail) = some ("https", authority) := by
  have ht' : tail.toList = [] ∨ ∃ c, tail.toList.head? = some c ∧ notDelimiter c = false := by
    rcases ht with h | h | h | h
    · left; subst h; rfl
    · exact Or.inr ⟨_, h, by decide⟩
    · exact Or.inr ⟨_, h, by decide⟩
    · exact Or.inr ⟨_, h, by decide⟩
  have hdata : ("https://" ++ authority ++ tail).toList =
      'h' :: 't' :: 't' :: 'p' :: 's' :: ':' :: '/' :: '/' :: (authority.toList ++ tail.toList) := by
    simp only [String.toList, String.data_append]
    rfl
  have htw := takeWhile_append_stop (p := notDelimiter) authority.toList tail.toList ha ht'
  unfold schemeAndAuthority
  rw [hdata]
  simp only [List.takeWhile_cons, List.dropWhile_cons]
  simp only [show ('h' != ':') = true by decide, show ('t' != ':') = true by decide,
    show ('p' != ':') = true by decide, show ('s' != ':') = true by decide,
    show (':' != ':') = false by decide, if_true, Bool.false_eq_true, if_false, List.tail_cons,
    List.take_succ_cons, List.take_zero, List.drop_succ_cons, List.drop_zero,
    List.takeWhile_nil]
  have hfun : (fun c : Char => c != '/' && c != '?' && c != '#') = notDelimiter := rfl
  rw [hfun, htw]
  rfl
/-- The URL text built by `url.JoinPath` from a base with the scheme `https` and a
non-empty host has the scheme `https` and, as its authority, the user and host of the
base. -/
theorem urlJoinPath_authority (base leaf : String) (u : URL)
    (hparse : urlParse base = .ok u) (hs : u.Scheme = "https") (hh : u.Host ≠ "") :
    urlJoinPath base [leaf] = .ok (u.JoinPath [leaf]).string ∧
    (u.JoinPath [leaf]).Scheme = u.Scheme ∧ (u.JoinPath [leaf]).Host = u.Host ∧
    (u.JoinPath [leaf]).User = u.User ∧
    schemeAndAuthority (u.JoinPath [leaf]).string =
      some ("https", userinfoAt u.User ++ escape u.Host .encodeHost) := by
  have ho := urlParse_opaque base u hparse hh
  obtain ⟨p, rp, hv⟩ := JoinPath_eq u [leaf]
  have hjoin : urlJoinPath base [leaf] = .ok (u.JoinPath [leaf]).string := by
    unfold urlJoinPath
    rw [hparse]
  have hvs : (u.JoinPath [leaf]).Scheme = u.Scheme := by rw [hv]
  have hvh : (u.JoinPath [leaf]).Host = u.Host := by rw [hv]
  have hvu : (u.JoinPath [leaf]).User = u.User := by rw [hv]
  have hvo : (u.JoinPath [leaf]).Opaque = "" := by rw [hv]; exact ho
  obtain ⟨tail, ht, htail⟩ := string_of_https_host (u.JoinPath [leaf]) (hvs.trans hs)
    (by rw [hvh]; exact hh) hvo
  refine ⟨hjoin, hvs, hvh, hvu, ?_⟩
  rw [ht, hvu, hvh, String.append_assoc "https://"]
  apply schemeAndAuthority_https _ _ _ htail
  intro c hc
  simp only [String.toList, String.data_append, List.mem_append] at hc
  rcases hc with h | h
  · exact userinfoAt_notDelimiter _ c h
  · exact escape_notDelimiter _ _ (Or.inl rfl) c h

/-- C10, amended: when the trusted base URL `cfg.Qiniu.FileServer` parses with a
non-empty host, every URL that `RestorePost` fetches has the scheme and the host of
the base: the base has the scheme `https`, the fetched URL is the text of the base
URL value with only its path changed by `JoinPath` (same `Scheme`, `User` and `Host`),
its scheme is `https`, and its authority, the text between `https://` and the next
`/`, `?` or `#`, is the user and host of the base.  Joining
`https://files.example.com/backups` with `wblog_20240101120000.db` gives
`https://files.example.com/backups/wblog_20240101120000.db`. -/
theorem RestorePost_fetch_keeps_scheme_and_host (cfg : Configuration) (w : World)
    (fileName fileUrl : String) (u : URL)
    (hparse : urlParse cfg.Qiniu.FileServer = .ok u) (hh : u.Host ≠ "")
    (hfetch : Event.httpGet fileUrl ∈ (RestorePost cfg w fileName).trace) :
    (u.Scheme = "https" ∧ fileUrl = (u.JoinPath [fileName]).string ∧
      (u.JoinPath [fileName]).Scheme = u.Scheme ∧ (u.JoinPath [fileName]).Host = u.Host ∧
      (u.JoinPath [fileName]).User = u.User ∧
      schemeAndAuthority fileUrl =
        some ("https", userinfoAt u.User ++ escape u.Host .encodeHost)) ∧
    urlJoinPath "https://files.example.com/backups" ["wblog_20240101120000.db"] =
      .ok "https://files.example.com/backups/wblog_20240101120000.db" := by
  refine ⟨?_, by decide⟩
  have rf := reachesFetch_of_get cfg w fileName fileUrl hfetch
  obtain ⟨u', hu', hs'⟩ := rf.scheme
  have hu : u' = u := by
    have := hu'.symm.trans hparse
    injection this
  subst hu
  obtain ⟨hjoin, hvs, hvh, hvu, hauth⟩ :=
    urlJoinPath_authority cfg.Qiniu.FileServer fileName u' hparse hs' hh
  have hurl : fileUrl = (u'.JoinPath [fileName]).string := by
    have := rf.joined.symm.trans hjoin
    injection this
  exact ⟨hs', hurl, hvs, hvh, hvu, by rw [hurl]; exact hauth⟩

/-- The base and the file name of the specification's example. -/
theorem RestorePost_fetch_keeps_scheme_and_host_witness :
    schemeAndAuthority "https://files.example.com/backups/wblog_20240101120000.db" =
      some ("https", "files.example.com") ∧
    urlJoinPath "https://files.example.com/backups" ["wblog_20240101120000.db"] =
      .ok "https://files.example.com/backups/wblog_20240101120000.db" :=
  have h := RestorePost_fetch_keeps_scheme_and_host sampleConfig notFoundWorld
    "wblog_20240101120000.db" "https://files.example.com/backups/wblog_20240101120000.db"
    (URL.mk "https" "" none "files.example.com" "/backups" "" false false "" "" "")
    (by decide) (by decide) (by decide)
  ⟨h.1.2.2.2.2.2.trans (by decide), h.2⟩

end Wblog
